import Mathlib

/-!
Verification of the data reconciliation and aggregation engine of the
btc_tracker repository (`src/App.jsx`, classes `BTCDatabase` and
`CryptoService`).

Modelling conventions:
* JS numbers holding epoch-millisecond timestamps are modelled as `Int`;
  prices and volumes as `Rat` (exact arithmetic standing in for IEEE doubles).
* A JS `Map` is modelled as an insertion-ordered association list:
  `set` on a fresh key appends, `set` on a present key updates in place.
* `Array.prototype.sort((a,b) => a.timestamp - b.timestamp)` is modelled by
  insertion sort on the `timestamp`-order; every sorted list in this
  development has pairwise-distinct timestamps, for which every correct
  sort produces the same output.
* JS `Date` local-time field arithmetic (`getFullYear`/`getMonth`/`getDate`/
  `getDay`/`setHours`/`setMinutes`/`setDate`, `new Date(y,m,d)`) is modelled
  at a fixed UTC offset of zero via exact civil-calendar conversions
  (`civilFromDays` / `daysFromCivil`, the standard era-based algorithms).
* `async`/`await` failure (rejected promises, thrown errors) is modelled by
  `Except String`, the `String` being the JS error message.
-/

namespace BtcTracker

/-- A daily OHLC record, the shape built by `CryptoService.loadCSVData`,
`CryptoService.fetchMissingDataFromAPI` and stored in IndexedDB
(`App.jsx` lines 187-195, 242-249). -/
structure Rec where
  timestamp : Int
  «open» : Rat
  high : Rat
  low : Rat
  close : Rat
  volume : Rat
deriving DecidableEq

/-- The `source` strings produced by `CryptoService.fetchCombinedData`. -/
inductive Source where
  | CSV_ONLY
  | CSV_AND_CACHE
  | LIVE_API
  | FETCHING
  | ERROR
deriving DecidableEq

/-- The `intervalType` strings accepted by `CryptoService.aggregateData`. -/
inductive Interval where
  | hour
  | day
  | week
  | month
deriving DecidableEq

/-- One day in milliseconds (`App.jsx` line 289). -/
def oneDayMs : Int := 86400000

/-- Civil date (year, month 1-12, day 1-31) from a count of days since
1970-01-01, by the standard era decomposition; models the JS `Date`
field getters `getFullYear`/`getMonth`/`getDate` at UTC offset 0
(JS `getMonth` is 0-based; here both directions use 1-based months, so
compositions agree with the JS compositions). -/
def civilFromDays (z0 : Int) : Int × Int × Int :=
  let z := z0 + 719468
  let era := z.fdiv 146097
  let doe := z - era * 146097
  let yoe := (doe - doe.fdiv 1460 + doe.fdiv 36524 - doe.fdiv 146096).fdiv 365
  let y := yoe + era * 400
  let doy := doe - (365 * yoe + yoe.fdiv 4 - yoe.fdiv 100)
  let mp := (5 * doy + 2).fdiv 153
  let d := doy - (153 * mp + 2).fdiv 5 + 1
  let m := mp + (if mp < 10 then 3 else -9)
  (y + (if m ≤ 2 then 1 else 0), m, d)

/-- Days since 1970-01-01 of a civil date (month 1-12); models the JS
`new Date(y, m, d).getTime()` construction at UTC offset 0 (up to the
ms-per-day factor). -/
def daysFromCivil (y0 m d : Int) : Int :=
  let y := y0 - (if m ≤ 2 then 1 else 0)
  let era := y.fdiv 400
  let yoe := y - era * 400
  let mp := (m + 9).fmod 12
  let doy := (153 * mp + 2).fdiv 5 + d - 1
  let doe := yoe * 365 + yoe.fdiv 4 - yoe.fdiv 100 + doy
  era * 146097 + doe - 719468

/-- Models `new Date(date.getFullYear(), date.getMonth(), date.getDate()).getTime()`
for `date = new Date(t)`: the epoch-ms key of the calendar day containing
epoch-ms instant `t` (`App.jsx` lines 184-185, 238-239). -/
def dayKeyMs (t : Int) : Int :=
  let c := civilFromDays (t.fdiv oneDayMs)
  oneDayMs * daysFromCivil c.1 c.2.1 c.2.2

/-- The bucket key computed by `CryptoService.aggregateData` for each
granularity (`App.jsx` lines 143-149):
`hour`: `date.setMinutes(0,0,0)`; `day`: `date.setHours(0,0,0,0)`;
`week`: shift to the most recent Monday then start of day;
`month`: `new Date(y, m, 1).getTime()`. -/
def bucketKey : Interval → Int → Int
  | .hour, t => t - t.fmod 3600000
  | .day, t => t - t.fmod oneDayMs
  | .week, t =>
      let sod := t - t.fmod oneDayMs
      let day := (t.fdiv oneDayMs + 4).fmod 7
      sod + (if day = 0 then -6 else 1 - day) * oneDayMs
  | .month, t =>
      let c := civilFromDays (t.fdiv oneDayMs)
      oneDayMs * daysFromCivil c.1 c.2.1 1

/-! ### JS `Map` model: insertion-ordered association list -/

/-- Models `map.get k` / `map.has k`: first (only) entry with key `k`. -/
def findEntry {β : Type} : List (Int × β) → Int → Option β
  | [], _ => none
  | (k', b) :: rest, k => if k' = k then some b else findEntry rest k

/-- Models `map.set k (f (map.get k))` for a present key: update in place,
keeping insertion order. -/
def updateEntry {β : Type} : List (Int × β) → Int → (β → β) → List (Int × β)
  | [], _, _ => []
  | (k', b) :: rest, k, f =>
      if k' = k then (k', f b) :: rest else (k', b) :: updateEntry rest k f

/-- One iteration of the grouping loops of `App.jsx` (lines 151-159,
187-202, 241-255): look the key up; if absent append a fresh group,
else fold the element into the existing group. -/
def groupStep {α β : Type} (key : α → Int) (init : Int → α → β)
    (comb : β → α → β) (m : List (Int × β)) (a : α) : List (Int × β) :=
  let k := key a
  match findEntry m k with
  | none => m ++ [(k, init k a)]
  | some _ => updateEntry m k (fun b => comb b a)

/-- The whole grouping loop: fold `groupStep` over the input from an empty
map. `Map.values()` later reads the second components in insertion order. -/
def groupFold {α β : Type} (key : α → Int) (init : Int → α → β)
    (comb : β → α → β) (rows : List α) : List (Int × β) :=
  rows.foldl (groupStep key init comb) []

/-! ### Sorting by timestamp -/

/-- The comparator `(a, b) => a.timestamp - b.timestamp` as a relation. -/
def tsLE (a b : Rec) : Prop := a.timestamp ≤ b.timestamp

/-- Strict version of `tsLE`: strictly ascending timestamps. -/
def tsLT (a b : Rec) : Prop := a.timestamp < b.timestamp

instance : DecidableRel tsLE := fun a b => inferInstanceAs (Decidable (a.timestamp ≤ b.timestamp))

instance : DecidableRel tsLT := fun a b => inferInstanceAs (Decidable (a.timestamp < b.timestamp))

instance : IsTotal Rec tsLE := ⟨fun a b => Int.le_total a.timestamp b.timestamp⟩

instance : IsTrans Rec tsLE := ⟨fun _ _ _ h h' => le_trans h h'⟩

/-- Models `arr.sort((a, b) => a.timestamp - b.timestamp)`. -/
def sortByTs (l : List Rec) : List Rec := l.insertionSort tsLE

namespace BTCDatabase

/-- Models `BTCDatabase.saveDailyPrice` / one IndexedDB `store.put` against the
`keyPath: 'timestamp'` object store (`App.jsx` lines 60, 67-76): upsert by
timestamp key. -/
def saveDailyPrice (store : List Rec) (r : Rec) : List Rec :=
  if store.any (fun s => s.timestamp == r.timestamp) then
    store.map (fun s => if s.timestamp == r.timestamp then r else s)
  else
    store ++ [r]

/-- Models `BTCDatabase.saveBulkDailyPrices` (`App.jsx` lines 78-89): put every
record of `dataArray` in one transaction. -/
def saveBulkDailyPrices (store : List Rec) (dataArray : List Rec) : List Rec :=
  dataArray.foldl saveDailyPrice store

end BTCDatabase

namespace CryptoService

/-- Models `grouped.set(key, ...point with timestamp replaced)` (`App.jsx` line 152):
the first point of a bucket is copied with its timestamp replaced by the
bucket key. -/
def aggInit (k : Int) (p : Rec) : Rec := { p with timestamp := k }

/-- Lines 154-158: later points of a bucket fold in with running max
`high`, running min `low`, last `close`, summed `volume`. -/
def aggComb (g p : Rec) : Rec :=
  { g with high := max g.high p.high, low := min g.low p.low,
           close := p.close, volume := g.volume + p.volume }

/-- Models `CryptoService.aggregateData` (`App.jsx` lines 135-163). `none` models a
null/undefined `data` argument. -/
def aggregateData (data : Option (List Rec)) (intervalType : Interval) : List Rec :=
  match data with
  | none => []
  | some d =>
    if d.isEmpty then [] else
      sortByTs ((groupFold (fun p => bucketKey intervalType p.timestamp)
        aggInit aggComb d).map (·.2))

/-- One parsed CSV data row (`App.jsx` line 181:
`lines[i].split(',').map(v => parseFloat(v))`). `timestamp` is epoch
seconds; `none` models a non-numeric field (`parseFloat` returned `NaN`,
line 182). -/
structure RawRow where
  timestamp : Option Int
  «open» : Rat
  high : Rat
  low : Rat
  close : Rat
  volume : Rat
deriving DecidableEq

/-- Models `CryptoService.loadCSVData`, the parsing loop (`App.jsx` lines 176-205):
rows with a non-numeric timestamp are skipped; the rest are grouped by the
calendar day of `timestamp * 1000` into `{timestamp: dayKey, open, high,
low, close, volume}` with running max `high`, running min `low`, last
`close`, summed `volume`; output sorted ascending by timestamp. -/
def csvValidRows (rows : List RawRow) : List (Int × RawRow) :=
  rows.filterMap (fun r => r.timestamp.map (fun t => (t, r)))

/-- Models `dailyData.set(dayKey, the fresh day record)` with fields `timestamp: dayKey, open, high, low, close,
volume})` (lines 187-195). -/
def csvInit (k : Int) (v : Int × RawRow) : Rec :=
  ⟨k, v.2.«open», v.2.high, v.2.low, v.2.close, v.2.volume⟩

/-- Lines 196-202: running max `high`, running min `low`, last `close`,
summed `volume`. -/
def csvComb (g : Rec) (v : Int × RawRow) : Rec :=
  { g with high := max g.high v.2.high, low := min g.low v.2.low,
           close := v.2.close, volume := g.volume + v.2.volume }

def loadCSVData (rows : List RawRow) : List Rec :=
  sortByTs ((groupFold (fun v => dayKeyMs (v.1 * 1000))
    csvInit csvComb (csvValidRows rows)).map (·.2))

/-- The daily aggregation of API `prices` point samples performed inside
`CryptoService.fetchMissingDataFromAPI` (`App.jsx` lines 235-258): each
`[timestamp, price]` pair is grouped by calendar day; the first sample of a
day supplies `open = high = low = close = price` and `volume = 0`; later
samples update running max `high`, running min `low` and last `close`
(`volume` is never touched again). Output sorted ascending. -/
def apiInit (k : Int) (pr : Int × Rat) : Rec := ⟨k, pr.2, pr.2, pr.2, pr.2, 0⟩

/-- Lines 251-255: running max `high`, running min `low`, last `close`;
`volume` is never touched after initialization. -/
def apiComb (g : Rec) (pr : Int × Rat) : Rec :=
  { g with high := max g.high pr.2, low := min g.low pr.2, close := pr.2 }

def apiDailyAggregate (prices : List (Int × Rat)) : List Rec :=
  sortByTs ((groupFold (fun pr => dayKeyMs pr.1) apiInit apiComb prices).map (·.2))

/-- Models `CryptoService.fetchMissingDataFromAPI` (`App.jsx` lines 217-268) at the
level of its observable outcome: a non-success HTTP response throws
(`Except.error` with the `API Error: <status>` message); a success response
yields the per-day aggregation of `data.prices`. On success the result is
also persisted by `BTCDatabase.saveBulkDailyPrices` before returning. -/
def fetchMissingDataFromAPI (api : Except String (List (Int × Rat))) :
    Except String (List Rec) :=
  match api with
  | .error e => .error e
  | .ok prices => .ok (apiDailyAggregate prices)

/-- The result shape of `CryptoService.fetchCombinedData` (`App.jsx`
lines 333-339); `lastUpdate` (an ISO string of the wall clock in the
source) is modelled as the epoch-ms clock value. -/
structure FetchResult where
  data : List Rec
  source : Source
  error : Option String
  missingDays : Int
  lastUpdate : Int
deriving DecidableEq

/-- Lines 283-287: `lastCachedTimestamp` via `Math.max(...cachedData.map(d =>
d.timestamp))` when the cache is non-empty (else `lastCSVTimestamp`), then
`lastTimestamp = Math.max(lastCSVTimestamp, lastCachedTimestamp)`; the two
steps fuse into one running max seeded with `lastCSVTimestamp`. -/
def lastTimestamp (lastCSVTimestamp : Int) (cachedData : List Rec) : Int :=
  cachedData.foldl (fun acc d => max acc d.timestamp) lastCSVTimestamp

/-- The merge step used twice in `fetchCombinedData` (lines 296-305 and
318-325): keep `base` whole, append each record of `extra` whose timestamp
is not already present in `base`, sort ascending by timestamp. -/
def mergeByTimestamp (base extra : List Rec) : List Rec :=
  let baseTs := base.map (·.timestamp)
  sortByTs (base ++ extra.filter (fun c => decide (c.timestamp ∉ baseTs)))

/-- The message of the `TypeError` thrown at line 282 when `csvData` is
empty (`csvData[csvData.length - 1]` is `undefined`). -/
def typeErrorMsg : String := "TypeError"

/-- Models `CryptoService.fetchCombinedData` (`App.jsx` lines 270-365).

Inputs: `csvR` the outcome of `loadCSVData` (line 276; a failed load stays
failed on the fallback retry at line 347 because the rejected promise is
memoized in `loadingPromise`); `storeR` the outcome of
`BTCDatabase.getAllDailyPrices` (line 279); `api` the remote fetch outcome;
`now = Date.now()`; `forceFetch` the argument.

Output: the returned result object, paired with the list of records written
to the Local Store (the argument of the single `saveBulkDailyPrices` call
inside `fetchMissingDataFromAPI`; `[]` when no write happens).

The outer `try`/`catch` (lines 341-364) is laid out branch by branch:
a failing archive load reaches the catch and fails again in the fallback
(ERROR, empty data); a failing store read reaches the catch with the
archive loaded (CSV_ONLY fallback with the outer `missingDays` still 0);
an empty archive throws the line-282 `TypeError` before `missingDays` is
assigned (CSV_ONLY fallback, data `[]`); a failing fetch reaches the catch
after `missingDays` was assigned (CSV_ONLY fallback on `csvData`). -/
def fetchCombinedData (csvR storeR : Except String (List Rec))
    (api : Except String (List (Int × Rat))) (now : Int) (forceFetch : Bool) :
    FetchResult × List Rec :=
  match csvR with
  | .error e => (⟨[], .ERROR, some e, 0, now⟩, [])
  | .ok csvData =>
    match storeR with
    | .error e => (⟨csvData, .CSV_ONLY, some e, 0, now⟩, [])
    | .ok cachedData =>
      match csvData.getLast? with
      | none => (⟨csvData, .CSV_ONLY, some typeErrorMsg, 0, now⟩, [])
      | some lastRec =>
        let lastTs := lastTimestamp lastRec.timestamp cachedData
        let daysSinceLastData := (now - lastTs).fdiv oneDayMs
        let allData := mergeByTimestamp csvData cachedData
        if 0 < daysSinceLastData ∨ forceFetch = true then
          match fetchMissingDataFromAPI api with
          | .error e => (⟨csvData, .CSV_ONLY, some e, daysSinceLastData, now⟩, [])
          | .ok newData =>
            if newData.isEmpty then
              (⟨allData, .FETCHING, none, daysSinceLastData, now⟩, newData)
            else
              (⟨mergeByTimestamp allData newData, .LIVE_API, none, 0, now⟩, newData)
        else
          (⟨allData,
            if cachedData.length > csvData.length then .CSV_AND_CACHE else .CSV_ONLY,
            none, daysSinceLastData, now⟩, [])

end CryptoService

/-! ### Characterization of the grouping loop -/

/-- Reference description of one group: from the day's (bucket's) matching
elements in encounter order, the first seeds the group via `init`, the rest
fold in via `comb`. -/
def groupSpec {α β : Type} (init : Int → α → β) (comb : β → α → β)
    (k : Int) : List α → Option β
  | [] => none
  | a :: as => some (as.foldl comb (init k a))

theorem findEntry_append_of_none {β : Type} {m : List (Int × β)} {k : Int}
    (h : findEntry m k = none) (m' : List (Int × β)) :
    findEntry (m ++ m') k = findEntry m' k := by
  induction m with
  | nil => rfl
  | cons e rest ih =>
    obtain ⟨k', b⟩ := e
    by_cases hk : k' = k
    · simp [findEntry, hk] at h
    · simp only [findEntry, hk, if_false, List.cons_append] at h ⊢
      exact ih h

theorem findEntry_append_of_some {β : Type} {m : List (Int × β)} {k : Int} {b : β}
    (h : findEntry m k = some b) (m' : List (Int × β)) :
    findEntry (m ++ m') k = some b := by
  induction m with
  | nil => simp [findEntry] at h
  | cons e rest ih =>
    obtain ⟨k', b'⟩ := e
    by_cases hk : k' = k
    · simp only [findEntry, hk, if_true, List.cons_append] at h ⊢
      exact h
    · simp only [findEntry, hk, if_false, List.cons_append] at h ⊢
      exact ih h

theorem findEntry_eq_none_iff {β : Type} {m : List (Int × β)} {k : Int} :
    findEntry m k = none ↔ k ∉ m.map Prod.fst := by
  induction m with
  | nil => simp [findEntry]
  | cons e rest ih =>
    obtain ⟨k', b⟩ := e
    by_cases hk : k' = k
    · simp [findEntry, hk]
    · simp [findEntry, hk, ih, Ne.symm hk]

theorem updateEntry_map_fst {β : Type} (m : List (Int × β)) (k : Int) (f : β → β) :
    (updateEntry m k f).map Prod.fst = m.map Prod.fst := by
  induction m with
  | nil => rfl
  | cons e rest ih =>
    obtain ⟨k', b⟩ := e
    by_cases hk : k' = k
    · simp [updateEntry, hk]
    · simp [updateEntry, hk, ih]

theorem findEntry_updateEntry_self {β : Type} {m : List (Int × β)} {k : Int} {b : β}
    (h : findEntry m k = some b) (f : β → β) :
    findEntry (updateEntry m k f) k = some (f b) := by
  induction m with
  | nil => simp [findEntry] at h
  | cons e rest ih =>
    obtain ⟨k', b'⟩ := e
    by_cases hk : k' = k
    · simp only [findEntry, hk, if_true, Option.some.injEq] at h
      simp [updateEntry, findEntry, hk, h]
    · simp only [findEntry, hk, if_false] at h
      simp [updateEntry, findEntry, hk, ih h]

theorem findEntry_updateEntry_ne {β : Type} (m : List (Int × β)) {k' k : Int}
    (h : k' ≠ k) (f : β → β) :
    findEntry (updateEntry m k' f) k = findEntry m k := by
  induction m with
  | nil => rfl
  | cons e rest ih =>
    obtain ⟨k'', b⟩ := e
    by_cases hk : k'' = k'
    · subst hk
      simp [updateEntry, findEntry, h, Ne.symm h]
    · by_cases hk2 : k'' = k <;>
        simp [updateEntry, findEntry, hk, hk2, Ne.symm h, ih]

theorem mem_of_findEntry {β : Type} {m : List (Int × β)} {k : Int} {b : β}
    (h : findEntry m k = some b) : (k, b) ∈ m := by
  induction m with
  | nil => simp [findEntry] at h
  | cons e rest ih =>
    obtain ⟨k', b'⟩ := e
    by_cases hk : k' = k
    · simp only [findEntry, hk, if_true, Option.some.injEq] at h
      subst hk h
      exact List.mem_cons_self _ _
    · simp only [findEntry, hk, if_false] at h
      exact List.mem_cons_of_mem _ (ih h)

theorem findEntry_of_mem_nodup {β : Type} {m : List (Int × β)} {k : Int} {b : β}
    (hnd : (m.map Prod.fst).Nodup) (h : (k, b) ∈ m) : findEntry m k = some b := by
  induction m with
  | nil => simp at h
  | cons e rest ih =>
    obtain ⟨k', b'⟩ := e
    simp only [List.map_cons, List.nodup_cons] at hnd
    rcases List.mem_cons.mp h with h1 | h1
    · obtain ⟨hk, hb⟩ := Prod.mk.inj h1
      subst hk hb
      simp [findEntry]
    · have hk : k' ≠ k := by
        intro hkk
        subst hkk
        exact hnd.1 (List.mem_map.mpr ⟨(k', b), h1, rfl⟩)
      simp only [findEntry, hk, if_false]
      exact ih hnd.2 h1

theorem foldl_groupStep_find {α β : Type} (key : α → Int) (init : Int → α → β)
    (comb : β → α → β) (k : Int) :
    ∀ (rows : List α) (m : List (Int × β)),
      findEntry (rows.foldl (groupStep key init comb) m) k =
        match findEntry m k with
        | some b => some ((rows.filter fun a => decide (key a = k)).foldl comb b)
        | none => groupSpec init comb k (rows.filter fun a => decide (key a = k))
  | [], m => by
    cases h : findEntry m k <;> simp [groupSpec, h]
  | a :: as, m => by
    rw [List.foldl_cons]
    rw [foldl_groupStep_find key init comb k as (groupStep key init comb m a)]
    by_cases hka : key a = k
    · subst hka
      cases hfa : findEntry m (key a) with
      | none =>
        have hstep : groupStep key init comb m a = m ++ [(key a, init (key a) a)] := by
          simp [groupStep, hfa]
        rw [hstep, findEntry_append_of_none hfa]
        simp [findEntry, List.filter_cons, groupSpec]
      | some b0 =>
        have hstep : groupStep key init comb m a
            = updateEntry m (key a) (fun b => comb b a) := by
          simp [groupStep, hfa]
        rw [hstep, findEntry_updateEntry_self hfa]
        simp [List.filter_cons]
    · have hfilter : (a :: as).filter (fun a => decide (key a = k))
          = as.filter (fun a => decide (key a = k)) := by
        simp [List.filter_cons, hka]
      rw [hfilter]
      cases hfa : findEntry m (key a) with
      | none =>
        have hstep : groupStep key init comb m a = m ++ [(key a, init (key a) a)] := by
          simp [groupStep, hfa]
        rw [hstep]
        cases hmk : findEntry m k with
        | none =>
          rw [findEntry_append_of_none hmk]
          simp [findEntry, hka]
        | some b => rw [findEntry_append_of_some hmk]
      | some b0 =>
        have hstep : groupStep key init comb m a
            = updateEntry m (key a) (fun b => comb b a) := by
          simp [groupStep, hfa]
        rw [hstep, findEntry_updateEntry_ne m hka]

/-- The value stored under key `k` after the whole grouping loop is exactly
the `init`/`comb` fold over the elements whose key is `k`, in order. -/
theorem groupFold_find {α β : Type} (key : α → Int) (init : Int → α → β)
    (comb : β → α → β) (rows : List α) (k : Int) :
    findEntry (groupFold key init comb rows) k =
      groupSpec init comb k (rows.filter fun a => decide (key a = k)) := by
  rw [groupFold, foldl_groupStep_find]
  rfl

theorem foldl_groupStep_fst_nodup {α β : Type} (key : α → Int) (init : Int → α → β)
    (comb : β → α → β) :
    ∀ (rows : List α) (m : List (Int × β)), (m.map Prod.fst).Nodup →
      (((rows.foldl (groupStep key init comb) m)).map Prod.fst).Nodup
  | [], _, h => h
  | a :: as, m, h => by
    rw [List.foldl_cons]
    refine foldl_groupStep_fst_nodup key init comb as _ ?_
    cases hfa : findEntry m (key a) with
    | none =>
      have hstep : groupStep key init comb m a = m ++ [(key a, init (key a) a)] := by
        simp [groupStep, hfa]
      rw [hstep]
      simp only [List.map_append, List.map_cons, List.map_nil]
      refine List.Nodup.append h (List.nodup_singleton _) ?_
      intro x hx hx'
      simp only [List.mem_singleton] at hx'
      subst hx'
      exact findEntry_eq_none_iff.mp hfa hx
    | some b0 =>
      have hstep : groupStep key init comb m a
          = updateEntry m (key a) (fun b => comb b a) := by
        simp [groupStep, hfa]
      rw [hstep, updateEntry_map_fst]
      exact h

theorem groupFold_fst_nodup {α β : Type} (key : α → Int) (init : Int → α → β)
    (comb : β → α → β) (rows : List α) :
    ((groupFold key init comb rows).map Prod.fst).Nodup :=
  foldl_groupStep_fst_nodup key init comb rows [] List.nodup_nil

theorem foldl_groupStep_fst_mem {α β : Type} (key : α → Int) (init : Int → α → β)
    (comb : β → α → β) (k : Int) :
    ∀ (rows : List α) (m : List (Int × β)),
      (k ∈ (rows.foldl (groupStep key init comb) m).map Prod.fst
        ↔ k ∈ m.map Prod.fst ∨ k ∈ rows.map key)
  | [], m => by simp
  | a :: as, m => by
    rw [List.foldl_cons, foldl_groupStep_fst_mem key init comb k as]
    have hstepm : k ∈ (groupStep key init comb m a).map Prod.fst
        ↔ k ∈ m.map Prod.fst ∨ k = key a := by
      cases hfa : findEntry m (key a) with
      | none =>
        have hstep : groupStep key init comb m a = m ++ [(key a, init (key a) a)] := by
          simp [groupStep, hfa]
        rw [hstep]
        simp [eq_comm]
      | some b0 =>
        have hstep : groupStep key init comb m a
            = updateEntry m (key a) (fun b => comb b a) := by
          simp [groupStep, hfa]
        rw [hstep, updateEntry_map_fst]
        constructor
        · exact Or.inl
        · rintro (h | h)
          · exact h
          · subst h
            exact List.mem_map.mpr ⟨_, mem_of_findEntry hfa, rfl⟩
    rw [hstepm]
    simp only [List.map_cons, List.mem_cons]
    tauto

theorem groupFold_fst_mem {α β : Type} (key : α → Int) (init : Int → α → β)
    (comb : β → α → β) (rows : List α) (k : Int) :
    k ∈ (groupFold key init comb rows).map Prod.fst ↔ k ∈ rows.map key := by
  rw [groupFold, foldl_groupStep_fst_mem]
  simp

theorem mem_groupFold_snd_iff {α β : Type} (key : α → Int) (init : Int → α → β)
    (comb : β → α → β) (rows : List α) (b : β) :
    b ∈ (groupFold key init comb rows).map (·.2) ↔
      ∃ k, findEntry (groupFold key init comb rows) k = some b := by
  constructor
  · intro hb
    obtain ⟨⟨k, b'⟩, hmem, hb'⟩ := List.mem_map.mp hb
    cases hb'
    exact ⟨k, findEntry_of_mem_nodup (groupFold_fst_nodup key init comb rows) hmem⟩
  · rintro ⟨k, hk⟩
    exact List.mem_map.mpr ⟨(k, b), mem_of_findEntry hk, rfl⟩

theorem foldl_preserves {α β : Type} (T : β → Int) (comb : β → α → β)
    (hcomb : ∀ b a, T (comb b a) = T b) :
    ∀ (as : List α) (b0 : β), T (as.foldl comb b0) = T b0
  | [], _ => rfl
  | a :: as, b0 => by
    rw [List.foldl_cons, foldl_preserves T comb hcomb as (comb b0 a), hcomb]

/-- When `init` stamps the key into the group value and `comb` never touches
it, every stored value carries its own key under projection `T`. -/
theorem groupFold_snd_key {α β : Type} {key : α → Int} {init : Int → α → β}
    {comb : β → α → β} (T : β → Int)
    (hinit : ∀ k a, T (init k a) = k) (hcomb : ∀ b a, T (comb b a) = T b)
    {rows : List α} {k : Int} {b : β}
    (h : findEntry (groupFold key init comb rows) k = some b) : T b = k := by
  rw [groupFold_find] at h
  cases hf : rows.filter (fun a => decide (key a = k)) with
  | nil =>
    rw [hf] at h
    simp [groupSpec] at h
  | cons a as =>
    rw [hf] at h
    simp only [groupSpec, Option.some.injEq] at h
    subst h
    rw [foldl_preserves T comb hcomb, hinit]

/-- Under the same conditions the values of the grouping map, projected by
`T`, are exactly the keys; in particular they are pairwise distinct. -/
theorem groupFold_snd_map_key {α β : Type} (key : α → Int) (init : Int → α → β)
    (comb : β → α → β) (T : β → Int)
    (hinit : ∀ k a, T (init k a) = k) (hcomb : ∀ b a, T (comb b a) = T b)
    (rows : List α) :
    ((groupFold key init comb rows).map (·.2)).map T
      = (groupFold key init comb rows).map Prod.fst := by
  rw [List.map_map]
  refine List.map_congr_left ?_
  rintro ⟨k, b⟩ hmem
  have h := findEntry_of_mem_nodup (groupFold_fst_nodup key init comb rows) hmem
  exact groupFold_snd_key T hinit hcomb h

/-! ### Sorting lemmas -/

theorem sortByTs_perm (l : List Rec) : (sortByTs l).Perm l :=
  List.perm_insertionSort tsLE l

theorem sortByTs_sorted (l : List Rec) : List.Sorted tsLE (sortByTs l) :=
  List.sorted_insertionSort tsLE l

theorem sortByTs_eq_of_sorted {l : List Rec} (h : List.Sorted tsLE l) :
    sortByTs l = l :=
  h.insertionSort_eq

/-- A `tsLE`-sorted list with pairwise-distinct timestamps is strictly
ascending. -/
theorem pairwise_tsLT_of_sorted_nodup {l : List Rec} (hs : List.Sorted tsLE l)
    (hnd : (l.map (fun r => r.timestamp)).Nodup) : l.Pairwise tsLT := by
  have hne : l.Pairwise (fun a b : Rec => a.timestamp ≠ b.timestamp) :=
    (List.pairwise_map).mp hnd
  exact (hs.and hne).imp fun h => lt_of_le_of_ne h.1 h.2

theorem sortByTs_map_ts_nodup {l : List Rec}
    (hnd : (l.map (fun r => r.timestamp)).Nodup) :
    ((sortByTs l).map (fun r => r.timestamp)).Nodup :=
  (((sortByTs_perm l).map (fun r => r.timestamp)).nodup_iff).mpr hnd

theorem sortByTs_pairwise_tsLT {l : List Rec}
    (hnd : (l.map (fun r => r.timestamp)).Nodup) :
    (sortByTs l).Pairwise tsLT :=
  pairwise_tsLT_of_sorted_nodup (sortByTs_sorted l) (sortByTs_map_ts_nodup hnd)

/-! ### Small fold helpers -/

theorem foldl_inv {α β : Type} (P : β → Prop) (comb : β → α → β)
    (hstep : ∀ b a, P b → P (comb b a)) :
    ∀ (as : List α) (b0 : β), P b0 → P (as.foldl comb b0)
  | [], _, h => h
  | a :: as, b0, h => foldl_inv P comb hstep as (comb b0 a) (hstep b0 a h)

theorem foldl_const_eq_getLastD {α : Type} :
    ∀ (l : List α) (x : α), l.foldl (fun _ a => a) x = l.getLastD x
  | [], _ => rfl
  | a :: l, x => by
    rw [List.foldl_cons, foldl_const_eq_getLastD l a, List.getLastD_cons]

theorem foldl_add_eq_sum :
    ∀ (l : List Rat) (x : Rat), l.foldl (· + ·) x = x + l.sum
  | [], x => by simp
  | a :: l, x => by
    rw [List.foldl_cons, foldl_add_eq_sum l (x + a), List.sum_cons]
    ring

theorem foldl_max_max (f : Rec → Int) :
    ∀ (l : List Rec) (a b : Int),
      l.foldl (fun acc d => max acc (f d)) (max a b)
        = max a (l.foldl (fun acc d => max acc (f d)) b)
  | [], a, b => rfl
  | d :: l, a, b => by
    rw [List.foldl_cons, List.foldl_cons, max_assoc, foldl_max_max f l]

/-- A running max seeded with `a` is `a` maxed with the list maximum. -/
theorem foldl_max_eq_max? (f : Rec → Int) :
    ∀ (l : List Rec) (a : Int),
      l.foldl (fun acc d => max acc (f d)) a
        = match (l.map f).max? with
          | none => a
          | some m => max a m
  | [], _ => rfl
  | d :: l, a => by
    rw [List.foldl_cons, foldl_max_max f l a (f d)]
    simp only [List.map_cons, List.max?]
    rw [List.foldl_map]

/-! ### `groupFold` over pairwise-fresh keys (no bucket ever merges) -/

theorem foldl_groupStep_of_fresh {α β : Type} (key : α → Int) (init : Int → α → β)
    (comb : β → α → β) :
    ∀ (rows : List α) (m : List (Int × β)), (rows.map key).Nodup →
      (∀ a ∈ rows, findEntry m (key a) = none) →
      rows.foldl (groupStep key init comb) m
        = m ++ rows.map (fun a => (key a, init (key a) a))
  | [], m, _, _ => by simp
  | a :: as, m, hnd, hfresh => by
    rw [List.foldl_cons]
    have hfa : findEntry m (key a) = none := hfresh a (List.mem_cons_self a as)
    have hstep : groupStep key init comb m a = m ++ [(key a, init (key a) a)] := by
      simp [groupStep, hfa]
    rw [hstep]
    simp only [List.map_cons, List.nodup_cons] at hnd
    have hfresh' : ∀ b ∈ as, findEntry (m ++ [(key a, init (key a) a)]) (key b) = none := by
      intro b hb
      rw [findEntry_append_of_none (hfresh b (List.mem_cons_of_mem a hb))]
      have : key a ≠ key b := fun h => hnd.1 (h ▸ List.mem_map.mpr ⟨b, hb, rfl⟩)
      simp [findEntry, this]
    rw [foldl_groupStep_of_fresh key init comb as _ hnd.2 hfresh']
    simp

theorem groupFold_of_fresh {α β : Type} (key : α → Int) (init : Int → α → β)
    (comb : β → α → β) (rows : List α) (hnd : (rows.map key).Nodup) :
    groupFold key init comb rows = rows.map (fun a => (key a, init (key a) a)) := by
  rw [groupFold, foldl_groupStep_of_fresh key init comb rows [] hnd
    (fun a _ => rfl)]
  simp

/-! ### Merge step lemmas -/

theorem mergeByTimestamp_perm (base extra : List Rec) :
    (CryptoService.mergeByTimestamp base extra).Perm
      (base ++ extra.filter
        (fun c => decide (c.timestamp ∉ base.map (fun r => r.timestamp)))) :=
  sortByTs_perm _

theorem mergeByTimestamp_mem {base extra : List Rec} {r : Rec} :
    r ∈ CryptoService.mergeByTimestamp base extra
      ↔ r ∈ base ∨ (r ∈ extra ∧ r.timestamp ∉ base.map (fun x => x.timestamp)) := by
  rw [(mergeByTimestamp_perm base extra).mem_iff]
  simp [List.mem_filter]

theorem append_filter_nodup_ts {base extra : List Rec}
    (hb : (base.map (fun r => r.timestamp)).Nodup)
    (he : (extra.map (fun r => r.timestamp)).Nodup) :
    (((base ++ extra.filter
        (fun c => decide (c.timestamp ∉ base.map (fun r => r.timestamp)))).map
      (fun r => r.timestamp))).Nodup := by
  rw [List.map_append]
  refine List.Nodup.append hb
    (List.Nodup.sublist (List.Sublist.map _ (List.filter_sublist _)) he) ?_
  intro t ht ht'
  obtain ⟨c, hc, hct⟩ := List.mem_map.mp ht'
  have hp := (List.mem_filter.mp hc).2
  simp only [decide_eq_true_eq] at hp
  exact hp (by rwa [hct])

theorem mergeByTimestamp_nodup_ts {base extra : List Rec}
    (hb : (base.map (fun r => r.timestamp)).Nodup)
    (he : (extra.map (fun r => r.timestamp)).Nodup) :
    ((CryptoService.mergeByTimestamp base extra).map (fun r => r.timestamp)).Nodup := by
  rw [CryptoService.mergeByTimestamp]
  exact sortByTs_map_ts_nodup (append_filter_nodup_ts hb he)

theorem mergeByTimestamp_pairwise {base extra : List Rec}
    (hb : (base.map (fun r => r.timestamp)).Nodup)
    (he : (extra.map (fun r => r.timestamp)).Nodup) :
    (CryptoService.mergeByTimestamp base extra).Pairwise tsLT := by
  rw [CryptoService.mergeByTimestamp]
  exact sortByTs_pairwise_tsLT (append_filter_nodup_ts hb he)

/-! ### Field-by-field characterization of the per-day folds -/

theorem apiComb_foldl (rest : List (Int × Rat)) (g : Rec) :
    (rest.foldl CryptoService.apiComb g).timestamp = g.timestamp
    ∧ (rest.foldl CryptoService.apiComb g).«open» = g.«open»
    ∧ (rest.foldl CryptoService.apiComb g).volume = g.volume
    ∧ (rest.foldl CryptoService.apiComb g).high = (rest.map (·.2)).foldl max g.high
    ∧ (rest.foldl CryptoService.apiComb g).low = (rest.map (·.2)).foldl min g.low
    ∧ (rest.foldl CryptoService.apiComb g).close = (rest.map (·.2)).getLastD g.close := by
  induction rest generalizing g with
  | nil => exact ⟨rfl, rfl, rfl, rfl, rfl, rfl⟩
  | cons pr rest ih =>
    obtain ⟨h1, h2, h3, h4, h5, h6⟩ := ih (CryptoService.apiComb g pr)
    exact ⟨h1, h2, h3,
      by simpa only [List.foldl_cons, List.map_cons] using h4,
      by simpa only [List.foldl_cons, List.map_cons] using h5,
      by simpa only [List.foldl_cons, List.map_cons, List.getLastD_cons] using h6⟩

theorem csvComb_foldl (rest : List (Int × CryptoService.RawRow)) (g : Rec) :
    (rest.foldl CryptoService.csvComb g).timestamp = g.timestamp
    ∧ (rest.foldl CryptoService.csvComb g).«open» = g.«open»
    ∧ (rest.foldl CryptoService.csvComb g).high
        = (rest.map (·.2.high)).foldl max g.high
    ∧ (rest.foldl CryptoService.csvComb g).low
        = (rest.map (·.2.low)).foldl min g.low
    ∧ (rest.foldl CryptoService.csvComb g).close
        = (rest.map (·.2.close)).getLastD g.close
    ∧ (rest.foldl CryptoService.csvComb g).volume
        = g.volume + (rest.map (·.2.volume)).sum := by
  induction rest generalizing g with
  | nil => exact ⟨rfl, rfl, rfl, rfl, rfl, by simp⟩
  | cons v rest ih =>
    obtain ⟨h1, h2, h3, h4, h5, h6⟩ := ih (CryptoService.csvComb g v)
    refine ⟨h1, h2,
      by simpa only [List.foldl_cons, List.map_cons] using h3,
      by simpa only [List.foldl_cons, List.map_cons] using h4,
      by simpa only [List.foldl_cons, List.map_cons, List.getLastD_cons] using h5, ?_⟩
    simp only [List.foldl_cons, List.map_cons, List.sum_cons]
    rw [h6]
    show g.volume + v.2.volume + _ = _
    ring

/-- Shared shape of the three aggregation pipelines (`aggregateData`,
`loadCSVData`, the fetch response aggregation): sort the values of a
grouping map whose `init` stamps the key into the record timestamp and
whose `comb` never changes it. The output has pairwise-distinct, strictly
ascending timestamps, every output timestamp is the key of some input, and
every stored group value reaches the output. -/
theorem sortedGroup_invariants {α : Type} (key : α → Int) (init : Int → α → Rec)
    (comb : Rec → α → Rec)
    (hinit : ∀ k a, (init k a).timestamp = k)
    (hcomb : ∀ b a, (comb b a).timestamp = b.timestamp)
    (rows : List α) :
    ((sortByTs ((groupFold key init comb rows).map (·.2))).map
        (fun r => r.timestamp)).Nodup
    ∧ (sortByTs ((groupFold key init comb rows).map (·.2))).Pairwise tsLT
    ∧ (∀ r ∈ sortByTs ((groupFold key init comb rows).map (·.2)),
        ∃ a ∈ rows, key a = r.timestamp)
    ∧ (∀ (k : Int) (b : Rec), findEntry (groupFold key init comb rows) k = some b →
        b ∈ sortByTs ((groupFold key init comb rows).map (·.2))) := by
  have hts : ((groupFold key init comb rows).map (·.2)).map (fun r => r.timestamp)
      = (groupFold key init comb rows).map Prod.fst :=
    groupFold_snd_map_key key init comb (fun r => r.timestamp) hinit hcomb rows
  have hnd0 : (((groupFold key init comb rows).map (·.2)).map
      (fun r => r.timestamp)).Nodup := by
    rw [hts]
    exact groupFold_fst_nodup key init comb rows
  refine ⟨sortByTs_map_ts_nodup hnd0, sortByTs_pairwise_tsLT hnd0, ?_, ?_⟩
  · intro r hr
    rw [(sortByTs_perm _).mem_iff] at hr
    obtain ⟨k, hk⟩ := (mem_groupFold_snd_iff key init comb rows r).mp hr
    have hrts : r.timestamp = k :=
      groupFold_snd_key (fun r => r.timestamp) hinit hcomb hk
    have hkmem : k ∈ (groupFold key init comb rows).map Prod.fst :=
      List.mem_map.mpr ⟨(k, r), mem_of_findEntry hk, rfl⟩
    rw [groupFold_fst_mem] at hkmem
    obtain ⟨a, ha, hak⟩ := List.mem_map.mp hkmem
    exact ⟨a, ha, by rw [hak, hrts]⟩
  · intro k b hfind
    rw [(sortByTs_perm _).mem_iff]
    exact List.mem_map.mpr ⟨(k, b), mem_of_findEntry hfind, rfl⟩

/-! ## Claims -/

/-- C10: for every granularity, `aggregateData` applied to a null/undefined
input series (`none`) or to an empty series returns the empty series; the
guard at `App.jsx` line 136 makes the operation total at its public
interface. -/
theorem aggregateData_total_on_absent_input (intervalType : Interval) :
    CryptoService.aggregateData none intervalType = []
    ∧ CryptoService.aggregateData (some []) intervalType = [] :=
  ⟨rfl, rfl⟩

/-- C6: for every input series whose records satisfy `low ≤ high` and every
granularity, the output of `aggregateData` has strictly increasing
timestamps (hence one record per timestamp), every output record satisfies
`low ≤ high`, and the output timestamps are exactly the non-empty bucket
keys of the input. -/
theorem aggregateData_output_invariants (S : List Rec) (it : Interval)
    (hhl : ∀ p ∈ S, p.low ≤ p.high) :
    (CryptoService.aggregateData (some S) it).Pairwise tsLT
    ∧ (∀ r ∈ CryptoService.aggregateData (some S) it, r.low ≤ r.high)
    ∧ (∀ k : Int,
        (∃ r ∈ CryptoService.aggregateData (some S) it, r.timestamp = k)
          ↔ ∃ p ∈ S, bucketKey it p.timestamp = k) := by
  cases S with
  | nil => simp [CryptoService.aggregateData]
  | cons p0 S0 =>
    have hagg : CryptoService.aggregateData (some (p0 :: S0)) it
        = sortByTs ((groupFold (fun p => bucketKey it p.timestamp)
            CryptoService.aggInit CryptoService.aggComb (p0 :: S0)).map (·.2)) := rfl
    have hts : (((groupFold (fun p => bucketKey it p.timestamp)
          CryptoService.aggInit CryptoService.aggComb (p0 :: S0)).map (·.2)).map
            (fun r => r.timestamp))
        = (groupFold (fun p => bucketKey it p.timestamp)
            CryptoService.aggInit CryptoService.aggComb (p0 :: S0)).map Prod.fst :=
      groupFold_snd_map_key (fun p => bucketKey it p.timestamp)
        CryptoService.aggInit CryptoService.aggComb (fun r => r.timestamp)
        (fun _ _ => rfl) (fun _ _ => rfl) (p0 :: S0)
    have hnd : (((groupFold (fun p => bucketKey it p.timestamp)
          CryptoService.aggInit CryptoService.aggComb (p0 :: S0)).map (·.2)).map
            (fun r => r.timestamp)).Nodup := by
      rw [hts]
      exact groupFold_fst_nodup _ _ _ _
    refine ⟨?_, ?_, ?_⟩
    · rw [hagg]
      exact sortByTs_pairwise_tsLT hnd
    · intro r hr
      rw [hagg, (sortByTs_perm _).mem_iff] at hr
      obtain ⟨k, hk⟩ := (mem_groupFold_snd_iff _ _ _ _ _).mp hr
      rw [groupFold_find] at hk
      cases hf : (p0 :: S0).filter (fun a => decide (bucketKey it a.timestamp = k)) with
      | nil =>
        rw [hf] at hk
        simp [groupSpec] at hk
      | cons a as =>
        rw [hf] at hk
        simp only [groupSpec, Option.some.injEq] at hk
        subst hk
        have ha : a ∈ p0 :: S0 := (List.mem_filter.mp (hf ▸ List.mem_cons_self a as)).1
        refine foldl_inv (fun g => g.low ≤ g.high) CryptoService.aggComb ?_ as _ ?_
        · intro b x hb
          exact le_trans (min_le_left _ _) (le_trans hb (le_max_left _ _))
        · exact hhl a ha
    · intro k
      constructor
      · rintro ⟨r, hr, hrk⟩
        rw [hagg, (sortByTs_perm _).mem_iff] at hr
        obtain ⟨k', hk'⟩ := (mem_groupFold_snd_iff _ _ _ _ _).mp hr
        have hrk' : r.timestamp = k' :=
          @groupFold_snd_key Rec Rec (fun p => bucketKey it p.timestamp)
            CryptoService.aggInit CryptoService.aggComb (fun r => r.timestamp)
            (fun _ _ => rfl) (fun _ _ => rfl) _ _ _ hk'
        have hk'mem : k' ∈ (groupFold (fun p => bucketKey it p.timestamp)
            CryptoService.aggInit CryptoService.aggComb (p0 :: S0)).map Prod.fst :=
          List.mem_map.mpr ⟨(k', r), mem_of_findEntry hk', rfl⟩
        rw [groupFold_fst_mem] at hk'mem
        obtain ⟨p, hp, hpk⟩ := List.mem_map.mp hk'mem
        exact ⟨p, hp, by rw [hpk, ← hrk', hrk]⟩
      · rintro ⟨p, hp, hpk⟩
        have hkmem : k ∈ (groupFold (fun p => bucketKey it p.timestamp)
            CryptoService.aggInit CryptoService.aggComb (p0 :: S0)).map Prod.fst := by
          rw [groupFold_fst_mem]
          exact List.mem_map.mpr ⟨p, hp, hpk⟩
        obtain ⟨⟨k2, b⟩, hmem, hk2⟩ := List.mem_map.mp hkmem
        cases hk2
        refine ⟨b, ?_, ?_⟩
        · rw [hagg, (sortByTs_perm _).mem_iff]
          exact List.mem_map.mpr ⟨(k2, b), hmem, rfl⟩
        · exact @groupFold_snd_key Rec Rec (fun p => bucketKey it p.timestamp)
            CryptoService.aggInit CryptoService.aggComb (fun r => r.timestamp)
            (fun _ _ => rfl) (fun _ _ => rfl) _ _ _
            (findEntry_of_mem_nodup (groupFold_fst_nodup _ _ _ _) hmem)

/-- Witness for C6 at a concrete two-record same-day input. -/
theorem aggregateData_output_invariants_witness :
    (∀ p ∈ [Rec.mk 0 100 110 90 105 10, Rec.mk 3600000 105 112 104 111 5],
        p.low ≤ p.high)
    ∧ ((CryptoService.aggregateData
          (some [Rec.mk 0 100 110 90 105 10, Rec.mk 3600000 105 112 104 111 5])
          Interval.day).Pairwise tsLT
      ∧ (∀ r ∈ CryptoService.aggregateData
            (some [Rec.mk 0 100 110 90 105 10, Rec.mk 3600000 105 112 104 111 5])
            Interval.day, r.low ≤ r.high)
      ∧ (∀ k : Int,
          (∃ r ∈ CryptoService.aggregateData
              (some [Rec.mk 0 100 110 90 105 10, Rec.mk 3600000 105 112 104 111 5])
              Interval.day, r.timestamp = k)
            ↔ ∃ p ∈ [Rec.mk 0 100 110 90 105 10, Rec.mk 3600000 105 112 104 111 5],
                bucketKey Interval.day p.timestamp = k)) :=
  ⟨by decide,
   aggregateData_output_invariants
     [Rec.mk 0 100 110 90 105 10, Rec.mk 3600000 105 112 104 111 5] .day (by decide)⟩

theorem map_snd_map_pair {α β : Type} (f : α → Int) (g : α → β) (l : List α) :
    (l.map (fun a => (f a, g a))).map (fun x => x.2) = l.map g := by
  induction l with
  | nil => rfl
  | cons a l ih => simp [ih]

/-- When the series is already daily (every timestamp at a local-day start)
and strictly ascending, day-aggregation is the identity: each record is its
own bucket, nothing merges, and sorting a sorted list changes nothing. -/
theorem aggregateData_day_eq_self (S : List Rec)
    (hdaily : ∀ p ∈ S, p.timestamp.fmod oneDayMs = 0)
    (hinc : S.Pairwise tsLT) :
    CryptoService.aggregateData (some S) .day = S := by
  cases S with
  | nil => rfl
  | cons p0 S0 =>
    have hkey : ∀ p ∈ p0 :: S0, bucketKey .day p.timestamp = p.timestamp := by
      intro p hp
      have h := hdaily p hp
      simp only [bucketKey, h, sub_zero]
    have hndk : ((p0 :: S0).map (fun p => bucketKey .day p.timestamp)).Nodup := by
      rw [List.map_congr_left hkey]
      exact List.pairwise_map.mpr (hinc.imp fun h => ne_of_lt h)
    have hagg : CryptoService.aggregateData (some (p0 :: S0)) .day
        = sortByTs ((groupFold (fun p => bucketKey .day p.timestamp)
            CryptoService.aggInit CryptoService.aggComb (p0 :: S0)).map (·.2)) := rfl
    rw [hagg, groupFold_of_fresh _ _ _ _ hndk, map_snd_map_pair]
    have hid : ∀ p ∈ p0 :: S0,
        CryptoService.aggInit (bucketKey .day p.timestamp) p = id p := by
      intro p hp
      rw [hkey p hp]
      cases p
      rfl
    rw [List.map_congr_left hid, List.map_id]
    exact sortByTs_eq_of_sorted (hinc.imp fun h => le_of_lt h)

/-- C7: the identity `aggregate(aggregate(S, day), day) = aggregate(S, day)` for a series
`S` that is already daily (timestamps at calendar-day starts, strictly
increasing). -/
theorem aggregateData_day_idempotent (S : List Rec)
    (hdaily : ∀ p ∈ S, p.timestamp.fmod oneDayMs = 0)
    (hinc : S.Pairwise tsLT) :
    CryptoService.aggregateData (some (CryptoService.aggregateData (some S) .day)) .day
      = CryptoService.aggregateData (some S) .day := by
  rw [aggregateData_day_eq_self S hdaily hinc]
  exact aggregateData_day_eq_self S hdaily hinc

/-- Witness for C7 at a concrete two-day daily series. -/
theorem aggregateData_day_idempotent_witness :
    ((∀ p ∈ [Rec.mk 0 100 110 90 105 10, Rec.mk 86400000 105 112 104 111 5],
        p.timestamp.fmod oneDayMs = 0)
      ∧ [Rec.mk 0 100 110 90 105 10, Rec.mk 86400000 105 112 104 111 5].Pairwise tsLT)
    ∧ CryptoService.aggregateData
        (some (CryptoService.aggregateData
          (some [Rec.mk 0 100 110 90 105 10, Rec.mk 86400000 105 112 104 111 5]) .day))
        .day
      = CryptoService.aggregateData
          (some [Rec.mk 0 100 110 90 105 10, Rec.mk 86400000 105 112 104 111 5]) .day :=
  ⟨⟨by decide, by decide⟩,
   aggregateData_day_idempotent
     [Rec.mk 0 100 110 90 105 10, Rec.mk 86400000 105 112 104 111 5]
     (by decide) (by decide)⟩

/-- C5: the fetch response's `(timestamp, price)` samples are aggregated
per calendar day: on a success response the fetch returns exactly this
aggregation; its timestamps are pairwise distinct, each the day key of some
sample; and the record of a day whose samples in order are `p0 :: rest` has
`open` = the first sample's price, `high`/`low` = running max/min of the
day's prices, `close` = the last sample's price, `volume = 0`. -/
theorem apiDailyAggregate_per_day (prices : List (Int × Rat)) (k : Int)
    (p0 : Int × Rat) (rest : List (Int × Rat))
    (hday : prices.filter (fun pr => decide (dayKeyMs pr.1 = k)) = p0 :: rest) :
    CryptoService.fetchMissingDataFromAPI (Except.ok prices)
        = Except.ok (CryptoService.apiDailyAggregate prices)
    ∧ ((CryptoService.apiDailyAggregate prices).map (fun r => r.timestamp)).Nodup
    ∧ (∀ r ∈ CryptoService.apiDailyAggregate prices,
        ∃ pr ∈ prices, dayKeyMs pr.1 = r.timestamp)
    ∧ (∃ r ∈ CryptoService.apiDailyAggregate prices,
        r.timestamp = k
        ∧ r.«open» = p0.2
        ∧ r.high = (rest.map (·.2)).foldl max p0.2
        ∧ r.low = (rest.map (·.2)).foldl min p0.2
        ∧ r.close = (rest.map (·.2)).getLastD p0.2
        ∧ r.volume = 0) := by
  obtain ⟨hnd, _, hmem, hback⟩ := sortedGroup_invariants (fun pr => dayKeyMs pr.1)
    CryptoService.apiInit CryptoService.apiComb
    (fun _ _ => rfl) (fun _ _ => rfl) prices
  have hA : CryptoService.apiDailyAggregate prices
      = sortByTs ((groupFold (fun pr => dayKeyMs pr.1)
          CryptoService.apiInit CryptoService.apiComb prices).map (·.2)) := rfl
  refine ⟨rfl, by rw [hA]; exact hnd, by rw [hA]; exact hmem, ?_⟩
  have hfind := groupFold_find (fun pr => dayKeyMs pr.1)
    CryptoService.apiInit CryptoService.apiComb prices k
  rw [hday] at hfind
  simp only [groupSpec] at hfind
  obtain ⟨e1, e2, e3, e4, e5, e6⟩ :=
    apiComb_foldl rest (CryptoService.apiInit k p0)
  refine ⟨rest.foldl CryptoService.apiComb (CryptoService.apiInit k p0),
    by rw [hA]; exact hback k _ hfind, e1, e2, ?_, ?_, ?_, e3⟩
  · exact e4
  · exact e5
  · exact e6

/-- Witness for C5: the two samples `[[0,100],[3600000,110]]` lie in one
calendar day and aggregate to `open=100, high=110, low=100, close=110,
volume=0`. -/
theorem apiDailyAggregate_per_day_witness :
    ∃ r ∈ CryptoService.apiDailyAggregate [((0 : Int), (100 : Rat)), (3600000, 110)],
      r.timestamp = 0
      ∧ r.«open» = ((0 : Int), (100 : Rat)).2
      ∧ r.high = ([((3600000 : Int), (110 : Rat))].map (·.2)).foldl max
          ((0 : Int), (100 : Rat)).2
      ∧ r.low = ([((3600000 : Int), (110 : Rat))].map (·.2)).foldl min
          ((0 : Int), (100 : Rat)).2
      ∧ r.close = ([((3600000 : Int), (110 : Rat))].map (·.2)).getLastD
          ((0 : Int), (100 : Rat)).2
      ∧ r.volume = 0 :=
  (apiDailyAggregate_per_day [((0 : Int), (100 : Rat)), (3600000, 110)] 0
    ((0 : Int), (100 : Rat)) [((3600000 : Int), (110 : Rat))] (by decide)).2.2.2

/-- Rows whose timestamp parsed as `NaN` contribute nothing to the valid
row stream, so dropping them up front changes nothing. -/
theorem csvValidRows_filter (rows : List CryptoService.RawRow) :
    CryptoService.csvValidRows (rows.filter (fun r => r.timestamp.isSome))
      = CryptoService.csvValidRows rows := by
  induction rows with
  | nil => rfl
  | cons r rows ih =>
    cases h : r.timestamp with
    | none =>
      simp only [CryptoService.csvValidRows, List.filter_cons, h, Option.isSome_none,
        Bool.false_eq_true, if_false, List.filterMap_cons, Option.map_none'] at ih ⊢
      exact ih
    | some t =>
      simp only [CryptoService.csvValidRows, List.filter_cons, h, Option.isSome_some,
        if_true, List.filterMap_cons, Option.map_some'] at ih ⊢
      rw [ih]

/-- C9: `loadCSVData` skips rows with a non-numeric timestamp; the rest are
grouped by the calendar day of their epoch-seconds timestamp, with one
output record per day (distinct, strictly ascending timestamps, each the
day key of some valid row); the record of a day whose valid rows in order
are `v0 :: vs` has `open` = the first row's open, `high`/`low` = running
max/min of row highs/lows, `close` = the last row's close, `volume` = the
sum of row volumes. -/
theorem loadCSVData_per_day (rows : List CryptoService.RawRow) (k : Int)
    (v0 : Int × CryptoService.RawRow) (vs : List (Int × CryptoService.RawRow))
    (hday : (CryptoService.csvValidRows rows).filter
        (fun v => decide (dayKeyMs (v.1 * 1000) = k)) = v0 :: vs) :
    CryptoService.loadCSVData rows
        = CryptoService.loadCSVData (rows.filter (fun r => r.timestamp.isSome))
    ∧ ((CryptoService.loadCSVData rows).map (fun r => r.timestamp)).Nodup
    ∧ (CryptoService.loadCSVData rows).Pairwise tsLT
    ∧ (∀ r ∈ CryptoService.loadCSVData rows,
        ∃ v ∈ CryptoService.csvValidRows rows, dayKeyMs (v.1 * 1000) = r.timestamp)
    ∧ (∃ r ∈ CryptoService.loadCSVData rows,
        r.timestamp = k
        ∧ r.«open» = v0.2.«open»
        ∧ r.high = (vs.map (·.2.high)).foldl max v0.2.high
        ∧ r.low = (vs.map (·.2.low)).foldl min v0.2.low
        ∧ r.close = (vs.map (·.2.close)).getLastD v0.2.close
        ∧ r.volume = v0.2.volume + (vs.map (·.2.volume)).sum) := by
  obtain ⟨hnd, hpair, hmem, hback⟩ :=
    sortedGroup_invariants (fun v => dayKeyMs (v.1 * 1000))
      CryptoService.csvInit CryptoService.csvComb
      (fun _ _ => rfl) (fun _ _ => rfl) (CryptoService.csvValidRows rows)
  have hA : CryptoService.loadCSVData rows
      = sortByTs ((groupFold (fun v => dayKeyMs (v.1 * 1000))
          CryptoService.csvInit CryptoService.csvComb
          (CryptoService.csvValidRows rows)).map (·.2)) := rfl
  refine ⟨?_, by rw [hA]; exact hnd, by rw [hA]; exact hpair,
    by rw [hA]; exact hmem, ?_⟩
  · show _ = sortByTs ((groupFold _ _ _
        (CryptoService.csvValidRows (rows.filter (fun r => r.timestamp.isSome)))).map (·.2))
    rw [csvValidRows_filter]
    exact hA
  · have hfind := groupFold_find (fun v => dayKeyMs (v.1 * 1000))
      CryptoService.csvInit CryptoService.csvComb (CryptoService.csvValidRows rows) k
    rw [hday] at hfind
    simp only [groupSpec] at hfind
    obtain ⟨e1, e2, e3, e4, e5, e6⟩ :=
      csvComb_foldl vs (CryptoService.csvInit k v0)
    exact ⟨vs.foldl CryptoService.csvComb (CryptoService.csvInit k v0),
      by rw [hA]; exact hback k _ hfind, e1, e2, e3, e4, e5, e6⟩

/-- Witness for C9: three raw rows, the middle one with a non-numeric
timestamp, the other two (epoch seconds 0 and 60) in the same calendar
day. -/
theorem loadCSVData_per_day_witness :
    ∃ r ∈ CryptoService.loadCSVData
        [CryptoService.RawRow.mk (some 0) 100 110 90 105 10,
         CryptoService.RawRow.mk none 1 1 1 1 1,
         CryptoService.RawRow.mk (some 60) 104 112 100 111 5],
      r.timestamp = 0
      ∧ r.«open» = (100 : Rat)
      ∧ r.high = ([(112 : Rat)]).foldl max 110
      ∧ r.low = ([(100 : Rat)]).foldl min 90
      ∧ r.close = ([(111 : Rat)]).getLastD 105
      ∧ r.volume = (10 : Rat) + ([(5 : Rat)]).sum := by
  have hh := (loadCSVData_per_day
    [CryptoService.RawRow.mk (some 0) 100 110 90 105 10,
     CryptoService.RawRow.mk none 1 1 1 1 1,
     CryptoService.RawRow.mk (some 60) 104 112 100 111 5] 0
    ((0 : Int), CryptoService.RawRow.mk (some 0) 100 110 90 105 10)
    [((60 : Int), CryptoService.RawRow.mk (some 60) 104 112 100 111 5)]
    (by decide)).2.2.2.2
  simpa using hh

/-! ### Branch equalities of `fetchCombinedData` -/

/-- The fetch-attempted branch with a failing fetch (`App.jsx` lines
308-314 into the catch at 341-354): the result is the Archive-only series
with `CSV_ONLY`, the error message, the previously computed gap, and no
store write. -/
theorem fetchCombinedData_apiError_eq (csvData cachedData : List Rec)
    (lastRec : Rec) (hlast : csvData.getLast? = some lastRec)
    (now : Int) (forceFetch : Bool) (e : String)
    (hfetch : 0 < (now - CryptoService.lastTimestamp lastRec.timestamp cachedData).fdiv
        oneDayMs ∨ forceFetch = true) :
    CryptoService.fetchCombinedData (.ok csvData) (.ok cachedData) (.error e)
        now forceFetch
      = (⟨csvData, Source.CSV_ONLY, some e,
          (now - CryptoService.lastTimestamp lastRec.timestamp cachedData).fdiv oneDayMs,
          now⟩, []) := by
  simp only [CryptoService.fetchCombinedData, hlast, CryptoService.fetchMissingDataFromAPI]
  rw [if_pos hfetch]

/-- The no-fetch branch (`App.jsx` lines 329-331). -/
theorem fetchCombinedData_noFetch_eq (csvData cachedData : List Rec)
    (lastRec : Rec) (hlast : csvData.getLast? = some lastRec)
    (api : Except String (List (Int × Rat))) (now : Int) (forceFetch : Bool)
    (hnof : ¬(0 < (now - CryptoService.lastTimestamp lastRec.timestamp cachedData).fdiv
        oneDayMs ∨ forceFetch = true)) :
    CryptoService.fetchCombinedData (.ok csvData) (.ok cachedData) api now forceFetch
      = (⟨CryptoService.mergeByTimestamp csvData cachedData,
          if cachedData.length > csvData.length then Source.CSV_AND_CACHE
            else Source.CSV_ONLY,
          none,
          (now - CryptoService.lastTimestamp lastRec.timestamp cachedData).fdiv oneDayMs,
          now⟩, []) := by
  simp only [CryptoService.fetchCombinedData, hlast]
  rw [if_neg hnof]

/-- The fetch-attempted branch when the fetch succeeds but yields no
records (`App.jsx` lines 308-331 with `newData.length = 0`): the merged
series stands, `source` is left at `FETCHING`, the gap stands, and the
store write is the empty batch. -/
theorem fetchCombinedData_emptyFetch_eq (csvData cachedData : List Rec)
    (lastRec : Rec) (hlast : csvData.getLast? = some lastRec)
    (now : Int) (forceFetch : Bool)
    (hfetch : 0 < (now - CryptoService.lastTimestamp lastRec.timestamp cachedData).fdiv
        oneDayMs ∨ forceFetch = true) :
    CryptoService.fetchCombinedData (.ok csvData) (.ok cachedData) (.ok []) now forceFetch
      = (⟨CryptoService.mergeByTimestamp csvData cachedData, Source.FETCHING, none,
          (now - CryptoService.lastTimestamp lastRec.timestamp cachedData).fdiv oneDayMs,
          now⟩, []) := by
  simp only [CryptoService.fetchCombinedData, hlast, CryptoService.fetchMissingDataFromAPI]
  rw [if_pos hfetch]
  rfl

/-- C1 counterexample: archive `[day 0]`, store `[day 1]`, `now = day 3`,
fetch fails with `API Error: 500`. The claim says the prior merged
Archive+Store series is returned unchanged with a fetch-attempted/error
source; in fact the store's record is dropped (`data` is the Archive-only
series) and `source` is `CSV_ONLY`. -/
theorem fetchCombinedData_apiError_counterexample :
    (CryptoService.fetchCombinedData (.ok [Rec.mk 0 100 110 90 105 10])
        (.ok [Rec.mk 86400000 106 107 105 106 0]) (.error "API Error: 500")
        (3 * 86400000) false).1.data
        ≠ CryptoService.mergeByTimestamp [Rec.mk 0 100 110 90 105 10]
            [Rec.mk 86400000 106 107 105 106 0]
    ∧ (CryptoService.fetchCombinedData (.ok [Rec.mk 0 100 110 90 105 10])
        (.ok [Rec.mk 86400000 106 107 105 106 0]) (.error "API Error: 500")
        (3 * 86400000) false).1.source = Source.CSV_ONLY
    ∧ Source.CSV_ONLY ≠ Source.FETCHING ∧ Source.CSV_ONLY ≠ Source.ERROR := by
  decide

/-- C1 (amended): when archive load and store read succeed, the archive is
non-empty and the remote fetch fails, `fetchCombinedData` returns the
Archive-only series (the Local Store's contribution is dropped), sets
`error` to the failure's message, sets `source` to `CSV_ONLY`, keeps the
computed `missingDays`, and performs no Local Store write (the store
contents are unchanged). -/
theorem fetchCombinedData_apiError_result (csvData cachedData : List Rec)
    (lastRec : Rec) (hlast : csvData.getLast? = some lastRec)
    (now : Int) (forceFetch : Bool) (e : String)
    (hfetch : 0 < (now - CryptoService.lastTimestamp lastRec.timestamp cachedData).fdiv
        oneDayMs ∨ forceFetch = true) :
    (CryptoService.fetchCombinedData (.ok csvData) (.ok cachedData) (.error e)
        now forceFetch).1.data = csvData
    ∧ (CryptoService.fetchCombinedData (.ok csvData) (.ok cachedData) (.error e)
        now forceFetch).1.source = Source.CSV_ONLY
    ∧ (CryptoService.fetchCombinedData (.ok csvData) (.ok cachedData) (.error e)
        now forceFetch).1.error = some e
    ∧ (CryptoService.fetchCombinedData (.ok csvData) (.ok cachedData) (.error e)
        now forceFetch).1.missingDays
      = (now - CryptoService.lastTimestamp lastRec.timestamp cachedData).fdiv oneDayMs
    ∧ (CryptoService.fetchCombinedData (.ok csvData) (.ok cachedData) (.error e)
        now forceFetch).2 = []
    ∧ BTCDatabase.saveBulkDailyPrices cachedData
        (CryptoService.fetchCombinedData (.ok csvData) (.ok cachedData) (.error e)
          now forceFetch).2 = cachedData := by
  rw [fetchCombinedData_apiError_eq csvData cachedData lastRec hlast now forceFetch e hfetch]
  exact ⟨rfl, rfl, rfl, rfl, rfl, rfl⟩

/-- Witness for C1 at the counterexample's input. -/
theorem fetchCombinedData_apiError_result_witness :
    ([Rec.mk 0 100 110 90 105 10].getLast? = some (Rec.mk 0 100 110 90 105 10)
      ∧ (0 < ((3 * 86400000 : Int) - CryptoService.lastTimestamp
          (Rec.mk 0 100 110 90 105 10).timestamp
          [Rec.mk 86400000 106 107 105 106 0]).fdiv oneDayMs ∨ false = true))
    ∧ (CryptoService.fetchCombinedData (.ok [Rec.mk 0 100 110 90 105 10])
        (.ok [Rec.mk 86400000 106 107 105 106 0]) (.error "API Error: 500")
        (3 * 86400000) false).1.data = [Rec.mk 0 100 110 90 105 10]
    ∧ (CryptoService.fetchCombinedData (.ok [Rec.mk 0 100 110 90 105 10])
        (.ok [Rec.mk 86400000 106 107 105 106 0]) (.error "API Error: 500")
        (3 * 86400000) false).1.error = some "API Error: 500" :=
  have h := fetchCombinedData_apiError_result [Rec.mk 0 100 110 90 105 10]
    [Rec.mk 86400000 106 107 105 106 0] (Rec.mk 0 100 110 90 105 10)
    (by decide) (3 * 86400000) false "API Error: 500" (Or.inl (by decide))
  ⟨⟨by decide, Or.inl (by decide)⟩, h.1, h.2.2.1⟩

/-- C2 counterexample: archive ends at day 0, store holds exactly the one
record for day 1, `now` is two hours into day 1 (`missingDays = 0`, no
fetch). The claim says `source = CSV_AND_CACHE`; the code compares record
counts (`cachedData.length > csvData.length`, `App.jsx` line 330), which is
`1 > 1` here, so `source = CSV_ONLY`. -/
theorem fetchCombinedData_noFetch_counterexample :
    (CryptoService.fetchCombinedData (.ok [Rec.mk 0 100 110 90 105 10])
        (.ok [Rec.mk 86400000 106 107 105 106 0]) (.ok [])
        (86400000 + 7200000) false).1.source = Source.CSV_ONLY
    ∧ Source.CSV_ONLY ≠ Source.CSV_AND_CACHE
    ∧ (CryptoService.fetchCombinedData (.ok [Rec.mk 0 100 110 90 105 10])
        (.ok [Rec.mk 86400000 106 107 105 106 0]) (.ok [])
        (86400000 + 7200000) false).1.missingDays = 0
    ∧ (CryptoService.fetchCombinedData (.ok [Rec.mk 0 100 110 90 105 10])
        (.ok [Rec.mk 86400000 106 107 105 106 0]) (.ok [])
        (86400000 + 7200000) false).1.data.length = 2 := by
  decide

/-- C2 (amended): when no fetch is needed (gap not positive, `forceFetch`
false), the returned `source` is `CSV_AND_CACHE` exactly when the Local
Store holds strictly more records than the Archive, else `CSV_ONLY`
(regardless of whether the store's timestamps extend the archive), and
`missingDays` is the computed gap. -/
theorem fetchCombinedData_noFetch_source (csvData cachedData : List Rec)
    (lastRec : Rec) (hlast : csvData.getLast? = some lastRec)
    (api : Except String (List (Int × Rat))) (now : Int) (forceFetch : Bool)
    (hnof : ¬(0 < (now - CryptoService.lastTimestamp lastRec.timestamp cachedData).fdiv
        oneDayMs ∨ forceFetch = true)) :
    ((CryptoService.fetchCombinedData (.ok csvData) (.ok cachedData) api
        now forceFetch).1.source = Source.CSV_AND_CACHE
      ↔ cachedData.length > csvData.length)
    ∧ (CryptoService.fetchCombinedData (.ok csvData) (.ok cachedData) api
        now forceFetch).1.source
      = (if cachedData.length > csvData.length then Source.CSV_AND_CACHE
          else Source.CSV_ONLY)
    ∧ (CryptoService.fetchCombinedData (.ok csvData) (.ok cachedData) api
        now forceFetch).1.missingDays
      = (now - CryptoService.lastTimestamp lastRec.timestamp cachedData).fdiv oneDayMs := by
  rw [fetchCombinedData_noFetch_eq csvData cachedData lastRec hlast api now forceFetch hnof]
  refine ⟨?_, rfl, rfl⟩
  by_cases h : cachedData.length > csvData.length
  · simp [h]
  · simp [h]

/-- Witness for C2 at the counterexample's input. -/
theorem fetchCombinedData_noFetch_source_witness :
    ([Rec.mk 0 100 110 90 105 10].getLast? = some (Rec.mk 0 100 110 90 105 10)
      ∧ ¬(0 < (((86400000 + 7200000) : Int) - CryptoService.lastTimestamp
          (Rec.mk 0 100 110 90 105 10).timestamp
          [Rec.mk 86400000 106 107 105 106 0]).fdiv oneDayMs ∨ false = true))
    ∧ ((CryptoService.fetchCombinedData (.ok [Rec.mk 0 100 110 90 105 10])
          (.ok [Rec.mk 86400000 106 107 105 106 0]) (.ok [])
          (86400000 + 7200000) false).1.source = Source.CSV_AND_CACHE
        ↔ [Rec.mk 86400000 106 107 105 106 0].length
            > [Rec.mk 0 100 110 90 105 10].length) :=
  have h := fetchCombinedData_noFetch_source [Rec.mk 0 100 110 90 105 10]
    [Rec.mk 86400000 106 107 105 106 0] (Rec.mk 0 100 110 90 105 10)
    (by decide) (.ok []) (86400000 + 7200000) false (by decide)
  ⟨⟨by decide, by decide⟩, h.1⟩

/-- C4: with a non-empty archive, the computed gap returned in
`missingDays` (here observed through a call whose fetch fails, so the gap
is not reset) is `floor((now - lastKnown) / oneDayMs)` where `lastKnown` is
the maximum of the last archive timestamp and the maximum store timestamp
(the last archive timestamp when the store is empty). -/
theorem fetchCombinedData_missingDays (csvData cachedData : List Rec)
    (lastRec : Rec) (hlast : csvData.getLast? = some lastRec)
    (now : Int) (forceFetch : Bool) (e : String) :
    (CryptoService.fetchCombinedData (.ok csvData) (.ok cachedData) (.error e)
        now forceFetch).1.missingDays
      = (now - CryptoService.lastTimestamp lastRec.timestamp cachedData).fdiv oneDayMs
    ∧ CryptoService.lastTimestamp lastRec.timestamp cachedData
      = match (cachedData.map (fun r => r.timestamp)).max? with
        | none => lastRec.timestamp
        | some M => max lastRec.timestamp M := by
  constructor
  · by_cases hf : 0 < (now - CryptoService.lastTimestamp lastRec.timestamp cachedData).fdiv
        oneDayMs ∨ forceFetch = true
    · rw [fetchCombinedData_apiError_eq csvData cachedData lastRec hlast now forceFetch e hf]
    · rw [fetchCombinedData_noFetch_eq csvData cachedData lastRec hlast (.error e)
        now forceFetch hf]
  · exact foldl_max_eq_max? (fun r => r.timestamp) cachedData lastRec.timestamp

/-- Witness for C4: `lastKnown = 0`, `now = lastKnown + 3 days + 2 hours`
gives `missingDays = 3`. -/
theorem fetchCombinedData_missingDays_witness :
    ([Rec.mk 0 100 110 90 105 10].getLast? = some (Rec.mk 0 100 110 90 105 10))
    ∧ (CryptoService.fetchCombinedData (.ok [Rec.mk 0 100 110 90 105 10]) (.ok [])
        (.error "API Error: 500") (3 * 86400000 + 2 * 3600000) false).1.missingDays = 3 :=
  have h := fetchCombinedData_missingDays [Rec.mk 0 100 110 90 105 10] []
    (Rec.mk 0 100 110 90 105 10) (by decide) (3 * 86400000 + 2 * 3600000) false
    "API Error: 500"
  ⟨by decide, h.1.trans (by decide)⟩

/-- C8 counterexample: with both archive and store empty, the returned
status is `CSV_ONLY` with the access error's message attached, not `ERROR`
and not a dedicated no-data status. -/
theorem fetchCombinedData_empty_counterexample :
    (CryptoService.fetchCombinedData (.ok []) (.ok []) (.ok []) 0 false).1.source
        = Source.CSV_ONLY
    ∧ Source.CSV_ONLY ≠ Source.ERROR
    ∧ (CryptoService.fetchCombinedData (.ok []) (.ok []) (.ok []) 0 false).1.error
        = some CryptoService.typeErrorMsg := by
  decide

/-- C8 (amended): when both the Archive and the Local Store are empty, the
line-282 access on the empty archive throws before any gap is computed; the
catch falls back to the (empty) archive, so `fetchCombinedData` returns an
empty series with `missingDays = 0` and no store write — but with
`source = CSV_ONLY` and the failure's message in `error`, not an `ERROR`
status. -/
theorem fetchCombinedData_empty_inputs (api : Except String (List (Int × Rat)))
    (now : Int) (forceFetch : Bool) :
    CryptoService.fetchCombinedData (.ok []) (.ok []) api now forceFetch
      = (⟨[], Source.CSV_ONLY, some CryptoService.typeErrorMsg, 0, now⟩, []) :=
  rfl

/-- C3: with a non-empty archive of unique timestamps and a store of unique
timestamps (IndexedDB's `keyPath: 'timestamp'` guarantees key uniqueness),
and no new API data (no fetch needed, or a fetch that returns an empty
`prices` array), the merged series returned by `fetchCombinedData` is
strictly ascending by timestamp (hence duplicate-free), contains every
archive record unchanged, contains only archive records and store records
whose timestamps the archive lacks (archive precedence), performs no store
write, and a second call on the resulting store state returns the identical
result. -/
theorem fetchCombinedData_merge_invariants (csvData cachedData : List Rec)
    (lastRec : Rec) (hlast : csvData.getLast? = some lastRec)
    (hcsv : (csvData.map (fun r => r.timestamp)).Nodup)
    (hcache : (cachedData.map (fun r => r.timestamp)).Nodup)
    (api : Except String (List (Int × Rat))) (now : Int) (forceFetch : Bool)
    (hnonew : ¬(0 < (now - CryptoService.lastTimestamp lastRec.timestamp cachedData).fdiv
          oneDayMs ∨ forceFetch = true)
        ∨ api = Except.ok []) :
    (CryptoService.fetchCombinedData (.ok csvData) (.ok cachedData) api
        now forceFetch).1.data.Pairwise tsLT
    ∧ (∀ r ∈ csvData, r ∈ (CryptoService.fetchCombinedData (.ok csvData)
        (.ok cachedData) api now forceFetch).1.data)
    ∧ (∀ c ∈ (CryptoService.fetchCombinedData (.ok csvData) (.ok cachedData) api
        now forceFetch).1.data,
        c ∈ csvData
        ∨ (c ∈ cachedData ∧ c.timestamp ∉ csvData.map (fun r => r.timestamp)))
    ∧ (CryptoService.fetchCombinedData (.ok csvData) (.ok cachedData) api
        now forceFetch).2 = []
    ∧ BTCDatabase.saveBulkDailyPrices cachedData
        (CryptoService.fetchCombinedData (.ok csvData) (.ok cachedData) api
          now forceFetch).2 = cachedData
    ∧ CryptoService.fetchCombinedData (.ok csvData)
        (.ok (BTCDatabase.saveBulkDailyPrices cachedData
          (CryptoService.fetchCombinedData (.ok csvData) (.ok cachedData) api
            now forceFetch).2)) api now forceFetch
      = CryptoService.fetchCombinedData (.ok csvData) (.ok cachedData) api
          now forceFetch := by
  have hdw : (CryptoService.fetchCombinedData (.ok csvData) (.ok cachedData) api
        now forceFetch).1.data = CryptoService.mergeByTimestamp csvData cachedData
      ∧ (CryptoService.fetchCombinedData (.ok csvData) (.ok cachedData) api
        now forceFetch).2 = [] := by
    rcases hnonew with hnof | hapi
    · rw [fetchCombinedData_noFetch_eq csvData cachedData lastRec hlast api
        now forceFetch hnof]
      exact ⟨rfl, rfl⟩
    · subst hapi
      by_cases hf : 0 < (now - CryptoService.lastTimestamp lastRec.timestamp
          cachedData).fdiv oneDayMs ∨ forceFetch = true
      · rw [fetchCombinedData_emptyFetch_eq csvData cachedData lastRec hlast
          now forceFetch hf]
        exact ⟨rfl, rfl⟩
      · rw [fetchCombinedData_noFetch_eq csvData cachedData lastRec hlast (.ok [])
          now forceFetch hf]
        exact ⟨rfl, rfl⟩
  obtain ⟨hdata, hw⟩ := hdw
  refine ⟨?_, ?_, ?_, hw, ?_, ?_⟩
  · rw [hdata]
    exact mergeByTimestamp_pairwise hcsv hcache
  · intro r hr
    rw [hdata]
    exact mergeByTimestamp_mem.mpr (Or.inl hr)
  · intro c hc
    rw [hdata] at hc
    rcases mergeByTimestamp_mem.mp hc with h | h
    · exact Or.inl h
    · exact Or.inr h
  · rw [hw]
    rfl
  · rw [hw]
    rfl

/-- Witness for C3: archive `[day 0]`, store `[day 1]`, `now` inside day 1,
no fetch needed. -/
theorem fetchCombinedData_merge_invariants_witness :
    (([Rec.mk 0 100 110 90 105 10].getLast? = some (Rec.mk 0 100 110 90 105 10))
      ∧ ([Rec.mk 0 100 110 90 105 10].map (fun r => r.timestamp)).Nodup
      ∧ ([Rec.mk 86400000 106 107 105 106 0].map (fun r => r.timestamp)).Nodup
      ∧ ¬(0 < (((86400000 + 7200000) : Int) - CryptoService.lastTimestamp
          (Rec.mk 0 100 110 90 105 10).timestamp
          [Rec.mk 86400000 106 107 105 106 0]).fdiv oneDayMs ∨ false = true))
    ∧ (CryptoService.fetchCombinedData (.ok [Rec.mk 0 100 110 90 105 10])
        (.ok [Rec.mk 86400000 106 107 105 106 0]) (.ok [])
        (86400000 + 7200000) false).1.data.Pairwise tsLT
    ∧ (CryptoService.fetchCombinedData (.ok [Rec.mk 0 100 110 90 105 10])
        (.ok [Rec.mk 86400000 106 107 105 106 0]) (.ok [])
        (86400000 + 7200000) false).2 = [] :=
  have h := fetchCombinedData_merge_invariants [Rec.mk 0 100 110 90 105 10]
    [Rec.mk 86400000 106 107 105 106 0] (Rec.mk 0 100 110 90 105 10)
    (by decide) (by decide) (by decide) (.ok []) (86400000 + 7200000) false
    (Or.inl (by decide))
  ⟨⟨by decide, by decide, by decide, by decide⟩, h.1, h.2.2.2.1⟩

end BtcTracker
